import Mathlib

/-!
# Verification of the KCL native-execution backend orchestration layer

This development embeds the top-level driver `run_command`
(`src/kclvm/cmd/src/run.rs`) and the runner components exercised by
`src/kclvm/runner/src/tests.rs` — the package assembler's path layout and
cleanup operations, the execution engine's deadline behaviour, the
diagnostic session, and the `ExecProgramArgs` configuration object — and
proves the specified properties about them.

Components whose implementation is not part of the visible sources (the
assembler, the runner library, the diagnostic handler, the configuration
loader) are modelled from the specification; each such definition carries a
doc comment starting with `Modelled from the spec:`. Filesystem state is
modelled as the list of existing paths.
-/

namespace KclChecks

/-! ## Diagnostic Session -/

/-- A diagnostic: severity (error or not), message, optional position.
Modelled from the spec: `Diagnostic = { severity, message, optional
position (line, column) }`. -/
structure Diagnostic where
  message : String
  isError : Bool
  pos : Option (Nat × Nat)
deriving DecidableEq

/-- Modelled from the spec: the Diagnostic Session (`ParseSession` /
`diag_handler` in the code, implemented outside the visible sources).
`stashed` holds accumulated diagnostics not yet emitted, `output` the
already-emitted stream, `emitCount` the number of emission calls made. -/
structure Session where
  stashed : List Diagnostic
  output : List Diagnostic
  emitCount : Nat
deriving DecidableEq

/-- Modelled from the spec: `has_errors` queries whether any pushed
diagnostic is error-severity, without mutating state. -/
def Session.has_errors (s : Session) : Bool :=
  s.stashed.any (fun d => d.isError)

/-- The error-severity diagnostic produced by pushing a plain string error. -/
def errDiag (msg : String) : Diagnostic :=
  { message := msg, isError := true, pos := none }

/-- Modelled from the spec: `add_err` pushes an error-severity diagnostic
carrying a plain message (`StringError`) onto the session. -/
def Session.add_err (s : Session) (msg : String) : Session :=
  { s with stashed := s.stashed ++ [errDiag msg] }

/-- Modelled from the spec: `emit_stashed_diagnostics_and_abort` prints all
accumulated diagnostics in the order received, drains the stash, and counts
one emission; the caller is signalled to terminate the current operation. -/
def Session.emit_stashed_diagnostics_and_abort (s : Session) : Session :=
  { s with
    output := s.output ++ s.stashed
    stashed := []
    emitCount := s.emitCount + 1 }

/-! ## The top-level driver `run_command` (embedded from
`src/kclvm/cmd/src/run.rs`) -/

/-- Result of a successful execution; `yaml_result` is the textual output. -/
structure ExecResult where
  yaml_result : String
deriving DecidableEq

/-- The observable outcome of one `run_command` invocation: the final
session, lines printed to stdout, file writes performed, a panic message if
the invocation panicked, and whether it completed successfully. -/
structure RunOutcome where
  sess : Session
  stdout : List String
  fileWrites : List (String × String)
  panic : Option String
  succeeded : Bool
deriving DecidableEq

/-- The panic message of `Result::unwrap` on the failed `std::fs::write`. -/
def writeUnwrapPanic : String :=
  "called Result.unwrap on an Err value"

/-- Embedded from `run_command` in `src/kclvm/cmd/src/run.rs`: on
`Ok(result)` with an output path, write the YAML result to the file and
`unwrap` the write (panicking on an I/O error); with no output path, print
the result to stdout. On `Err(msg)`, push `msg` as a new error diagnostic
only when the session reports no errors yet, then emit the stashed
diagnostics and abort. `execResult` stands for the value returned by
`exec_program`, `output` for `settings.output()`, and `writeOk` for whether
the `std::fs::write` call succeeds. -/
def run_command (sess : Session) (execResult : Except String ExecResult)
    (output : Option String) (writeOk : Bool) : RunOutcome :=
  match execResult with
  | .ok result =>
    match output with
    | some o =>
      if writeOk then
        { sess := sess, stdout := [], fileWrites := [(o, result.yaml_result)],
          panic := none, succeeded := true }
      else
        { sess := sess, stdout := [], fileWrites := [],
          panic := some writeUnwrapPanic, succeeded := false }
    | none =>
      { sess := sess, stdout := [result.yaml_result], fileWrites := [],
        panic := none, succeeded := true }
  | .error msg =>
    let sess1 := if sess.has_errors then sess else sess.add_err msg
    let sess2 := sess1.emit_stashed_diagnostics_and_abort
    { sess := sess2, stdout := [], fileWrites := [], panic := none,
      succeeded := false }

/-! ## Package Assembler: data model, path layout, cleanup -/

/-- A parsed module; only its identity matters to the orchestration layer. -/
structure Module where
  filename : String
  pkg : String
deriving DecidableEq

/-- A resolved program: root and main package paths plus modules grouped by
package path (the `pkgs` mapping, embedded as an association list). -/
structure Program where
  root : String
  main : String
  pkgs : List (String × List Module)
deriving DecidableEq

/-- The reserved sentinel package path denoting the entry package. -/
def MAIN_PKG_NAME : String := "__main__"

/-- Modelled from the spec: the fixed object-file suffix
(`OBJECT_FILE_SUFFIX` of the compiler backend, not in the visible sources). -/
def OBJECT_FILE_SUFFIX : String := ".o"

/-- Modelled from the spec: the cache directory is derived deterministically
from the program's root package path — a fixed hidden-directory name under
the program root (`KclvmAssembler.construct_cache_dir`, not in the visible
sources). -/
def construct_cache_dir (root : String) : String :=
  root ++ "/.kclvm/cache"

/-- The object path the assembler uses for one package: the entry package's
object goes to the caller-supplied entry file plus the fixed suffix, every
other package's object into the root-derived cache directory under its
package path plus the same suffix. -/
def pkg_lib_path (root entry_file pkgpath suffix : String) : String :=
  if pkgpath == MAIN_PKG_NAME then entry_file ++ suffix
  else construct_cache_dir root ++ "/" ++ pkgpath ++ suffix

/-- Embedded from `construct_pkg_lib_path` in
`src/kclvm/runner/src/tests.rs`: the expected object path for every package
of the program, in `pkgs` order. -/
def construct_pkg_lib_path (prog : Program) (main_path : String)
    (suffix : String) : List String :=
  prog.pkgs.map (fun pr => pkg_lib_path prog.root main_path pr.1 suffix)

/-- The filesystem is modelled as the list of existing paths. -/
abbrev FileSystem := List String

/-- Modelled from the spec: the per-package step of `gen_libs`, iterated
over `Program.pkgs`. `ok` tells whether a package's modules lower
successfully; a failing package surfaces a descriptive error naming its
package path, while a succeeding one writes its object at the layout path
and records that path. -/
def gen_libs_aux (root entry_file : String) (ok : String → Bool) :
    List (String × List Module) → FileSystem →
    Except String (List String × FileSystem)
  | [], fs => .ok ([], fs)
  | pr :: rest, fs =>
    if ok pr.1 then
      match gen_libs_aux root entry_file ok rest
          (pkg_lib_path root entry_file pr.1 OBJECT_FILE_SUFFIX :: fs) with
      | .ok (paths, fs2) =>
        .ok (pkg_lib_path root entry_file pr.1 OBJECT_FILE_SUFFIX :: paths, fs2)
      | .error e => .error e
    else .error ("compile error in pkgpath " ++ pr.1)

/-- Modelled from the spec: `KclvmAssembler.gen_libs` (not in the visible
sources) compiles every package of the program to one native object — the
entry package at the caller-supplied `entry_file` path plus the fixed
suffix, all others into the root-derived cache — and returns the object
paths together with the updated filesystem. -/
def gen_libs (prog : Program) (entry_file : String) (ok : String → Bool)
    (fs : FileSystem) : Except String (List String × FileSystem) :=
  gen_libs_aux prog.root entry_file ok prog.pkgs fs

/-- Modelled from the spec: `clean_path` of the assembler (not in the
visible sources) deletes one path; deleting a non-existent path is not an
error. -/
def clean_path (fs : FileSystem) (path : String) : FileSystem :=
  fs.filter (fun p => p != path)

/-- Does `p` match the sharded-companion pattern `<base>.*<suffix>`? -/
def matchesShard (base suffix p : String) : Bool :=
  (base.data ++ ['.']).isPrefixOf p.data && suffix.data.isSuffixOf p.data

/-- Modelled from the spec: `KclvmAssembler.clean_path_for_genlibs` (not in
the visible sources) deletes the base path and every file in the same
directory matching `<base>.*<suffix>`. -/
def clean_path_for_genlibs (fs : FileSystem) (base suffix : String) :
    FileSystem :=
  fs.filter (fun p => !(p == base || matchesShard base suffix p))

/-! ## Execution Engine: failure taxonomy and deadline -/

/-- Modelled from the spec: the failure taxonomy of §7. -/
inductive FailureKind where
  | ParseFailure
  | ResolutionFailure
  | CodegenFailure (pkgpath : String)
  | LinkFailure (pkgpath : String)
  | TimeoutFailure
  | RuntimeFault
  | IOFailure
deriving DecidableEq

/-- Modelled from the spec: the Execution Engine invokes the artifact under
a wall-clock deadline (time abstracted to `Nat` cost units); exceeding the
deadline yields the distinct `TimeoutFailure` instead of the run's own
outcome. -/
def execute_with_deadline (deadline cost : Nat)
    (run : Except FailureKind ExecResult) : Except FailureKind ExecResult :=
  if deadline < cost then .error .TimeoutFailure else run

/-! ## `exec_program` -/

/-- The descriptive message of a per-package lowering failure. -/
def codegen_err_msg (pkgpath : String) : String :=
  "error: compile error in pkgpath " ++ pkgpath

/-- Modelled from the spec: `exec_program` of the runner library (not in
the visible sources). A program whose modules are semantically invalid at
lowering time fails the build: the protective boundary converts the fault
into a normal `Err` result (modelled by totality of this function), the
failure is stashed in the Diagnostic Session as an error diagnostic naming
the offending package, and no emission is performed by `exec_program`
itself. `valid` tells whether the program's modules lower successfully;
`pkgpath` is the offending package when they do not. -/
def exec_program (sess : Session) (valid : Bool) (pkgpath : String)
    (result : String) : Session × Except String ExecResult :=
  if valid then (sess, .ok { yaml_result := result })
  else
    ({ sess with stashed := sess.stashed ++ [errDiag (codegen_err_msg pkgpath)] },
     .error (codegen_err_msg pkgpath))

/-! ## `ExecProgramArgs`: the configuration object and its JSON text -/

/-- Modelled from the spec: the configuration object `ExecProgramArgs` (not
in the visible sources) — the list of input source filenames, a derived
load option, and a serialization preference (requested output format). -/
structure ExecProgramArgs where
  k_filename_list : List String
  strict_range_check : Bool
  json_result : Bool
deriving DecidableEq

/-- JSON escaping of one character: quote and backslash are escaped. -/
def escapeChar (c : Char) : List Char :=
  if c = '"' ∨ c = '\\' then ['\\', c] else [c]

/-- JSON escaping of a character sequence. -/
def escapeChars : List Char → List Char
  | [] => []
  | c :: cs => escapeChar c ++ escapeChars cs

/-- Render the items of a non-empty JSON string array; the caller has
already emitted `[` and the first opening quote. -/
def renderItems : List String → List Char
  | [] => []
  | [s] => escapeChars s.data ++ ['"', ']']
  | s :: t :: rest => escapeChars s.data ++ '"' :: ',' :: '"' :: renderItems (t :: rest)

/-- Render a JSON array of strings. -/
def renderStrings : List String → List Char
  | [] => ['[', ']']
  | s :: rest => '[' :: '"' :: renderItems (s :: rest)

/-- Render a JSON boolean. -/
def renderBool : Bool → List Char
  | true => ['t', 'r', 'u', 'e']
  | false => ['f', 'a', 'l', 's', 'e']

/-- Parse a JSON string body up to its closing quote, undoing the escapes;
returns the decoded characters and the unconsumed tail. -/
def parseStringBody : List Char → Option (List Char × List Char)
  | [] => none
  | c :: rest =>
    if c = '"' then some ([], rest)
    else if c = '\\' then
      match rest with
      | [] => none
      | d :: rest2 =>
        if d = '"' ∨ d = '\\' then
          match parseStringBody rest2 with
          | some pr => some (d :: pr.1, pr.2)
          | none => none
        else none
    else
      match parseStringBody rest with
      | some pr => some (c :: pr.1, pr.2)
      | none => none

/-- Parse the items of a JSON string array after the first opening quote
has been consumed; `fuel` bounds the number of items. -/
def parseItemsF : Nat → List Char → Option (List String × List Char)
  | 0, _ => none
  | fuel + 1, l =>
    match parseStringBody l with
    | none => none
    | some (s, r) =>
      match r with
      | ']' :: r2 => some ([String.mk s], r2)
      | ',' :: '"' :: r2 =>
        match parseItemsF fuel r2 with
        | some (items, rest) => some (String.mk s :: items, rest)
        | none => none
      | _ => none

/-- Parse a JSON array of strings, returning the unconsumed tail. -/
def parseStrings (l : List Char) : Option (List String × List Char) :=
  match l with
  | '[' :: ']' :: rest => some ([], rest)
  | '[' :: '"' :: rest => parseItemsF rest.length rest
  | _ => none

/-- Parse a JSON boolean, returning the unconsumed tail. -/
def parseBool : List Char → Option (Bool × List Char)
  | 't' :: 'r' :: 'u' :: 'e' :: rest => some (true, rest)
  | 'f' :: 'a' :: 'l' :: 's' :: 'e' :: rest => some (false, rest)
  | _ => none

/-- Consume an expected literal character sequence off the front of the
input, failing when it does not match. -/
def dropLit : List Char → List Char → Option (List Char)
  | [], l => some l
  | _ :: _, [] => none
  | e :: es, c :: cs => if c = e then dropLit es cs else none

/-- Modelled from the spec: the canonical JSON text of an
`ExecProgramArgs` value (`to_json`, produced by field-order-preserving
serialization of the configuration). -/
def jsonOfArgsChars (a : ExecProgramArgs) : List Char :=
  "\x7b\"k_filename_list\":".data
    ++ renderStrings a.k_filename_list
    ++ ",\"strict_range_check\":".data
    ++ renderBool a.strict_range_check
    ++ ",\"json_result\":".data
    ++ renderBool a.json_result
    ++ "\x7d".data

/-- Modelled from the spec: parsing an `ExecProgramArgs` from JSON text
(`from_str`); rejects text that is not a serialized configuration. -/
def argsOfJsonChars (l : List Char) : Option ExecProgramArgs := do
  let l1 ← dropLit "\x7b\"k_filename_list\":".data l
  let (files, l2) ← parseStrings l1
  let l3 ← dropLit ",\"strict_range_check\":".data l2
  let (src, l4) ← parseBool l3
  let l5 ← dropLit ",\"json_result\":".data l4
  let (jr, l6) ← parseBool l5
  let l7 ← dropLit "\x7d".data l6
  if l7.isEmpty then
    some { k_filename_list := files, strict_range_check := src, json_result := jr }
  else none

/-- `to_json`: the canonical JSON text of a configuration. -/
def ExecProgramArgs.to_json (a : ExecProgramArgs) : String :=
  String.mk (jsonOfArgsChars a)

/-- `from_str`: construct a configuration from JSON text. -/
def ExecProgramArgs.from_str (s : String) : Option ExecProgramArgs :=
  argsOfJsonChars s.data

/-- Modelled from the spec: a loaded settings file — every configuration
field is optional there, and missing fields fall back to the defaults when
the configuration is constructed. -/
structure SettingsFile where
  kcl_files : Option (List String)
  strict_range_check : Option Bool
  json_result : Option Bool
deriving DecidableEq

/-- Modelled from the spec: constructing an `ExecProgramArgs` from a loaded
settings file (`try_from`), applying the default for each missing field. -/
def ExecProgramArgs.from_setting_file (s : SettingsFile) : ExecProgramArgs :=
  { k_filename_list := s.kcl_files.getD []
    strict_range_check := s.strict_range_check.getD false
    json_result := s.json_result.getD false }

end KclChecks

namespace KclChecks

/-- C1: on the error path `run_command` checks `has_errors` first, pushes
the returned message only when the session reports no errors, and in either
case emits the stashed diagnostics exactly once; the emitted stream gains
the prior stash plus at most one new diagnostic for the message. -/
theorem run_command_error_dedup (sess : Session) (msg : String)
    (output : Option String) (writeOk : Bool) :
    (run_command sess (.error msg) output writeOk).sess.emitCount
        = sess.emitCount + 1 ∧
    (run_command sess (.error msg) output writeOk).sess.stashed = [] ∧
    (run_command sess (.error msg) output writeOk).sess.output
        = sess.output ++ sess.stashed
          ++ (if sess.has_errors then [] else [errDiag msg]) := by
  by_cases h : sess.has_errors
  · simp [run_command, h, Session.emit_stashed_diagnostics_and_abort]
  · simp [run_command, h, Session.emit_stashed_diagnostics_and_abort,
      Session.add_err]

/-- C10: on the success path, with an output path configured, a successful
write records exactly one file write and nothing is printed or emitted; a
failed write makes `run_command` panic with the unwrap message, leaving the
session untouched and routing nothing through the diagnostic session; with
no output path configured the result is printed to stdout. -/
theorem run_command_success_write_unwrap (sess : Session) (result : ExecResult)
    (o : String) :
    run_command sess (.ok result) (some o) true
      = { sess := sess, stdout := [], fileWrites := [(o, result.yaml_result)],
          panic := none, succeeded := true } ∧
    run_command sess (.ok result) (some o) false
      = { sess := sess, stdout := [], fileWrites := [],
          panic := some writeUnwrapPanic, succeeded := false } ∧
    (∀ w : Bool, run_command sess (.ok result) none w
      = { sess := sess, stdout := [result.yaml_result], fileWrites := [],
          panic := none, succeeded := true }) := by
  refine ⟨rfl, rfl, fun w => rfl⟩

/-- The invariant of the per-package assembly loop: on success, the
returned paths are exactly the layout paths of the packages in order, the
initial filesystem is preserved, and every returned path exists in the
final filesystem. -/
theorem gen_libs_aux_spec (root entry : String) (ok : String → Bool) :
    ∀ (pkgs : List (String × List Module)) (fs : FileSystem)
      (paths : List String) (fs2 : FileSystem),
      gen_libs_aux root entry ok pkgs fs = .ok (paths, fs2) →
      paths = pkgs.map (fun pr => pkg_lib_path root entry pr.1 OBJECT_FILE_SUFFIX)
        ∧ (∀ x ∈ fs, x ∈ fs2) ∧ (∀ p ∈ paths, p ∈ fs2) := by
  intro pkgs
  induction pkgs with
  | nil =>
    intro fs paths fs2 h
    simp only [gen_libs_aux, Except.ok.injEq, Prod.mk.injEq] at h
    obtain ⟨h1, h2⟩ := h
    subst h1; subst h2
    exact ⟨rfl, fun x hx => hx, by simp⟩
  | cons pr rest ih =>
    intro fs paths fs2 h
    simp only [gen_libs_aux] at h
    by_cases hok : ok pr.1 = true
    · rw [if_pos hok] at h
      cases hrec : gen_libs_aux root entry ok rest
          (pkg_lib_path root entry pr.1 OBJECT_FILE_SUFFIX :: fs) with
      | ok pf =>
        obtain ⟨paths1, fs1⟩ := pf
        rw [hrec] at h
        simp only [Except.ok.injEq, Prod.mk.injEq] at h
        obtain ⟨hp, hf⟩ := h
        obtain ⟨hmap, hsub, hmem⟩ := ih _ _ _ hrec
        subst hp; subst hf
        refine ⟨by simp [hmap], ?_, ?_⟩
        · intro x hx
          exact hsub x (List.mem_cons_of_mem _ hx)
        · intro p hp
          rcases List.mem_cons.mp hp with h1 | h1
          · subst h1
            exact hsub _ (List.mem_cons_self _ _)
          · exact hmem _ h1
      | error e =>
        rw [hrec] at h
        cases h
    · rw [if_neg hok] at h
      cases h

/-- C2: a successful `gen_libs` call returns exactly one object path per
package of `Program.pkgs` (entry package included), and every returned path
exists on disk immediately after the call. -/
theorem gen_libs_length_exists (prog : Program) (entry : String)
    (ok : String → Bool) (fs : FileSystem) (paths : List String)
    (fs2 : FileSystem) (h : gen_libs prog entry ok fs = .ok (paths, fs2)) :
    paths.length = prog.pkgs.length ∧ ∀ p ∈ paths, p ∈ fs2 := by
  obtain ⟨hmap, -, hmem⟩ :=
    gen_libs_aux_spec prog.root entry ok prog.pkgs fs paths fs2 h
  exact ⟨by rw [hmap]; simp, hmem⟩

/-- A concrete two-package program used as witness input. -/
def progW : Program :=
  { root := "/w", main := MAIN_PKG_NAME,
    pkgs := [(MAIN_PKG_NAME, []), ("sub.pkg", [])] }

/-- Witness for C2 at a concrete two-package program. -/
theorem gen_libs_length_exists_witness :
    (["/tmp/entry.o", "/w/.kclvm/cache/sub.pkg.o"] : List String).length
        = progW.pkgs.length ∧
    "/tmp/entry.o" ∈
      (["/w/.kclvm/cache/sub.pkg.o", "/tmp/entry.o"] : FileSystem) :=
  ⟨(gen_libs_length_exists progW "/tmp/entry" (fun _ => true) []
      ["/tmp/entry.o", "/w/.kclvm/cache/sub.pkg.o"]
      ["/w/.kclvm/cache/sub.pkg.o", "/tmp/entry.o"] rfl).1,
   (gen_libs_length_exists progW "/tmp/entry" (fun _ => true) []
      ["/tmp/entry.o", "/w/.kclvm/cache/sub.pkg.o"]
      ["/w/.kclvm/cache/sub.pkg.o", "/tmp/entry.o"] rfl).2
     "/tmp/entry.o" (by simp)⟩

/-- Zipping a list with its own image under `f` pairs each element with its
image. -/
theorem zip_map_self {α β : Type} (f : α → β) (l : List α) :
    l.zip (l.map f) = l.map (fun a => (a, f a)) := by
  induction l with
  | nil => rfl
  | cons a t ih => simp [ih]

/-- C3: on every successful assembly the returned paths agree with
`construct_pkg_lib_path`; the entry package's object sits exactly at the
caller-supplied `entry_file` plus the fixed suffix (hence outside the
cache), and every non-entry package's object sits under the cache directory
derived from `Program.root`, named by its package path plus the suffix. -/
theorem gen_libs_entry_vs_cache (prog : Program) (entry : String)
    (ok : String → Bool) (fs : FileSystem) (paths : List String)
    (fs2 : FileSystem) (h : gen_libs prog entry ok fs = .ok (paths, fs2)) :
    paths = construct_pkg_lib_path prog entry OBJECT_FILE_SUFFIX ∧
    ∀ pr ∈ prog.pkgs.zip paths,
      (pr.1.1 = MAIN_PKG_NAME → pr.2 = entry ++ OBJECT_FILE_SUFFIX) ∧
      (pr.1.1 ≠ MAIN_PKG_NAME →
        pr.2 = construct_cache_dir prog.root ++ "/" ++ pr.1.1
          ++ OBJECT_FILE_SUFFIX) := by
  obtain ⟨hmap, -, -⟩ :=
    gen_libs_aux_spec prog.root entry ok prog.pkgs fs paths fs2 h
  refine ⟨by rw [hmap]; rfl, ?_⟩
  rw [hmap, zip_map_self]
  intro pr hpr
  rw [List.mem_map] at hpr
  obtain ⟨a, ha, rfl⟩ := hpr
  constructor
  · intro hm
    have hb : (a.1 == MAIN_PKG_NAME) = true := beq_iff_eq.mpr hm
    simp [pkg_lib_path, hb]
  · intro hm
    have hb : (a.1 == MAIN_PKG_NAME) = false := beq_eq_false_iff_ne.mpr hm
    simp [pkg_lib_path, hb]

/-- Witness for C3 at a concrete two-package program. -/
theorem gen_libs_entry_vs_cache_witness :
    (["/tmp/entry.o", "/w/.kclvm/cache/sub.pkg.o"] : List String)
      = construct_pkg_lib_path progW "/tmp/entry" OBJECT_FILE_SUFFIX :=
  (gen_libs_entry_vs_cache progW "/tmp/entry" (fun _ => true) []
      ["/tmp/entry.o", "/w/.kclvm/cache/sub.pkg.o"]
      ["/w/.kclvm/cache/sub.pkg.o", "/tmp/entry.o"] rfl).1

/-- C4: sharded cleanup removes the base path and every path matching
`<base>.*<suffix>`, and keeps every other path — in particular, when no
sharded companion matches, nothing besides the base is removed, and the
operation always succeeds (it is a total function on the modelled
filesystem). -/
theorem clean_path_for_genlibs_spec (fs : FileSystem) (base suffix : String) :
    base ∉ clean_path_for_genlibs fs base suffix ∧
    (∀ p, matchesShard base suffix p = true →
      p ∉ clean_path_for_genlibs fs base suffix) ∧
    (∀ p ∈ fs, p ≠ base → matchesShard base suffix p = false →
      p ∈ clean_path_for_genlibs fs base suffix) := by
  refine ⟨?_, ?_, ?_⟩
  · intro hmem
    rw [clean_path_for_genlibs, List.mem_filter] at hmem
    simp at hmem
  · intro p hp hmem
    rw [clean_path_for_genlibs, List.mem_filter] at hmem
    simp [hp] at hmem
  · intro p hp hne hms
    rw [clean_path_for_genlibs, List.mem_filter]
    exact ⟨hp, by simp [hne, hms]⟩

/-- Witness for C4 at the scenario of `test_clean_path_for_genlibs`: base,
two sharded companions and an unrelated file. -/
theorem clean_path_for_genlibs_witness :
    "/t/test.test1.o" ∉ clean_path_for_genlibs
        ["/t/test", "/t/test.test1.o", "/t/test.test2.o", "/t/keep"]
        "/t/test" ".o" :=
  (clean_path_for_genlibs_spec
      ["/t/test", "/t/test.test1.o", "/t/test.test2.o", "/t/keep"]
      "/t/test" ".o").2.1 "/t/test.test1.o" (by decide)

/-- C5: cleanup is idempotent — cleaning an already-cleaned filesystem
changes nothing, and cleaning a path that does not exist leaves the
filesystem unchanged (and signals no error, being a total function). -/
theorem clean_path_idempotent (fs : FileSystem) (path : String) :
    clean_path (clean_path fs path) path = clean_path fs path ∧
    (path ∉ fs → clean_path fs path = fs) := by
  constructor
  · simp [clean_path, List.filter_filter]
  · intro h
    rw [clean_path, List.filter_eq_self]
    intro a ha
    simp only [bne_iff_ne, ne_eq]
    intro heq
    exact h (heq ▸ ha)

/-- Witness for C5: cleaning a never-existing path leaves the filesystem
unchanged. -/
theorem clean_path_idempotent_witness :
    clean_path ["/a/x.o"] "/a/y.o" = ["/a/x.o"] :=
  (clean_path_idempotent ["/a/x.o"] "/a/y.o").2 (by decide)

/-- C6: an invocation whose cost exceeds the configured deadline returns
exactly the `TimeoutFailure` kind, which is distinct from every other
failure kind — the result is never any other error. -/
theorem execute_with_deadline_timeout (deadline cost : Nat)
    (run : Except FailureKind ExecResult) (h : deadline < cost) :
    execute_with_deadline deadline cost run
        = .error FailureKind.TimeoutFailure ∧
    ∀ k : FailureKind, k ≠ FailureKind.TimeoutFailure →
      execute_with_deadline deadline cost run ≠ .error k := by
  have heq : execute_with_deadline deadline cost run
      = .error FailureKind.TimeoutFailure := by
    simp [execute_with_deadline, h]
  refine ⟨heq, fun k hk hcontra => hk ?_⟩
  rw [heq] at hcontra
  injection hcontra with h2
  exact h2.symm

/-- Witness for C6 at a concrete over-deadline invocation. -/
theorem execute_with_deadline_timeout_witness :
    execute_with_deadline 1 2 (.ok { yaml_result := "a: 1" })
      = .error FailureKind.TimeoutFailure :=
  (execute_with_deadline_timeout 1 2 (.ok { yaml_result := "a: 1" })
    (by decide)).1

/-- C9: on a semantically invalid program, `exec_program` returns a normal
error result naming the offending package (never a panic: the embedding is
a total function), the failure is already visible through the session's
`has_errors` query, and `exec_program` itself performs no emission. -/
theorem exec_program_invalid_err (sess : Session) (pkgpath result : String) :
    (∃ msg, (exec_program sess false pkgpath result).2 = .error msg ∧
      ∃ pre suf, msg = pre ++ pkgpath ++ suf) ∧
    (exec_program sess false pkgpath result).1.has_errors = true ∧
    (exec_program sess false pkgpath result).1.emitCount = sess.emitCount := by
  refine ⟨⟨codegen_err_msg pkgpath, rfl,
      "error: compile error in pkgpath ", "", by simp [codegen_err_msg]⟩, ?_, rfl⟩
  simp [exec_program, Session.has_errors, errDiag]

/-! ### JSON round-trip lemmas -/

/-- One-step evaluation of the string-body parser at a closing quote. -/
theorem parseStringBody_quote (l : List Char) :
    parseStringBody ('"' :: l) = some ([], l) := by
  rw [parseStringBody.eq_def]; simp

/-- One-step evaluation of the string-body parser at an escape sequence. -/
theorem parseStringBody_esc (d : Char) (l : List Char) :
    parseStringBody ('\\' :: d :: l)
      = if d = '"' ∨ d = '\\' then
          match parseStringBody l with
          | some pr => some (d :: pr.1, pr.2)
          | none => none
        else none := by
  rw [parseStringBody.eq_def]; simp

/-- One-step evaluation of the string-body parser at an ordinary
character. -/
theorem parseStringBody_plain (c : Char) (hq : ¬c = '"') (hb : ¬c = '\\')
    (l : List Char) :
    parseStringBody (c :: l)
      = match parseStringBody l with
        | some pr => some (c :: pr.1, pr.2)
        | none => none := by
  rw [parseStringBody.eq_def]
  simp only [if_neg hq, if_neg hb]

/-- Unescaping undoes escaping: parsing the escaped body followed by a
closing quote recovers the original characters and the tail. -/
theorem parseStringBody_escape (s : List Char) (rest : List Char) :
    parseStringBody (escapeChars s ++ '"' :: rest) = some (s, rest) := by
  induction s with
  | nil => simp [escapeChars, parseStringBody_quote]
  | cons c cs ih =>
    by_cases hc : c = '"' ∨ c = '\\'
    · simp only [escapeChars, escapeChar, if_pos hc, List.cons_append,
        List.nil_append, List.append_assoc]
      rw [parseStringBody_esc, if_pos hc, ih]
    · push_neg at hc
      simp only [escapeChars, escapeChar, if_neg (not_or.mpr hc),
        List.cons_append, List.nil_append]
      rw [parseStringBody_plain c hc.1 hc.2, ih]

/-- Consuming a literal that is a prefix of the input succeeds and returns
the rest. -/
theorem dropLit_append (pre l : List Char) : dropLit pre (pre ++ l) = some l := by
  induction pre with
  | nil => rfl
  | cons c cs ih => simp [dropLit, ih]

/-- Consuming a literal equal to the whole input leaves nothing. -/
theorem dropLit_refl (l : List Char) : dropLit l l = some [] := by
  simpa using dropLit_append l []

/-- Parsing a rendered boolean recovers it and the tail. -/
theorem parseBool_render (b : Bool) (rest : List Char) :
    parseBool (renderBool b ++ rest) = some (b, rest) := by
  cases b <;> rfl

/-- Rendering a non-empty item list produces at least one character per
item. -/
theorem renderItems_length (items : List String) :
    items.length ≤ (renderItems items).length := by
  induction items with
  | nil => simp [renderItems]
  | cons s t ih =>
    cases t with
    | nil => simp [renderItems]
    | cons u v =>
      simp only [List.length_cons] at ih ⊢
      simp only [renderItems, List.length_append, List.length_cons]
      omega

/-- Parsing the rendered items of a non-empty string array recovers the
array and the tail, given enough fuel. -/
theorem parseItemsF_render (items : List String) :
    ∀ (fuel : Nat) (rest : List Char), items ≠ [] → items.length ≤ fuel →
      parseItemsF fuel (renderItems items ++ rest) = some (items, rest) := by
  induction items with
  | nil => intro fuel rest hne _; exact absurd rfl hne
  | cons s t ih =>
    intro fuel rest _ hlen
    cases fuel with
    | zero => simp at hlen
    | succ f =>
      cases t with
      | nil =>
        simp only [renderItems, List.append_assoc, List.cons_append,
          List.nil_append]
        simp only [parseItemsF, parseStringBody_escape]
      | cons u v =>
        have hlen2 : (u :: v).length ≤ f := by
          simp only [List.length_cons] at hlen ⊢
          omega
        simp only [renderItems, List.append_assoc, List.cons_append,
          List.nil_append]
        simp only [parseItemsF, parseStringBody_escape,
          ih f rest (by simp) hlen2]

/-- Parsing a rendered string array recovers it and the tail. -/
theorem parseStrings_render (items : List String) (rest : List Char) :
    parseStrings (renderStrings items ++ rest) = some (items, rest) := by
  cases items with
  | nil => rfl
  | cons s t =>
    simp only [renderStrings, List.cons_append]
    rw [parseStrings.eq_def]
    simp only []
    exact parseItemsF_render (s :: t) _ rest (by simp)
      (le_trans (renderItems_length (s :: t)) (by simp))

/-- Parsing the canonical JSON text of a configuration recovers it. -/
theorem argsOfJson_jsonOfArgs (a : ExecProgramArgs) :
    argsOfJsonChars (jsonOfArgsChars a) = some a := by
  obtain ⟨files, src, jr⟩ := a
  simp only [jsonOfArgsChars, argsOfJsonChars, List.append_assoc]
  simp only [dropLit_append, Option.bind_eq_bind, Option.some_bind,
    parseStrings_render, parseBool_render, dropLit_refl, List.isEmpty_nil,
    if_true]

/-- C7: for every configuration value, constructing a configuration from
its JSON text with `from_str` and re-serializing it with `to_json` yields
the original JSON text (exactly, hence identical up to surrounding
whitespace). -/
theorem exec_program_args_json_round_trip (a : ExecProgramArgs) :
    (ExecProgramArgs.from_str (ExecProgramArgs.to_json a)).map
        ExecProgramArgs.to_json = some (ExecProgramArgs.to_json a) := by
  have h : ExecProgramArgs.from_str (ExecProgramArgs.to_json a) = some a :=
    argsOfJson_jsonOfArgs a
  rw [h]
  rfl

/-- C8: a configuration constructed from a settings file serializes to the
same canonical JSON text as the configuration constructed directly from
the equivalent literal fields. -/
theorem from_setting_file_to_json_eq (files : List String) (src jr : Bool)
    (s : SettingsFile) (hf : s.kcl_files = some files)
    (hs : s.strict_range_check = some src) (hj : s.json_result = some jr) :
    (ExecProgramArgs.from_setting_file s).to_json
      = (ExecProgramArgs.mk files src jr).to_json := by
  simp [ExecProgramArgs.from_setting_file, hf, hs, hj]

/-- Witness for C8 at a concrete settings file. -/
theorem from_setting_file_to_json_eq_witness :
    (ExecProgramArgs.from_setting_file
        { kcl_files := some ["main.k"], strict_range_check := some false,
          json_result := some false }).to_json
      = (ExecProgramArgs.mk ["main.k"] false false).to_json :=
  from_setting_file_to_json_eq ["main.k"] false false
    { kcl_files := some ["main.k"], strict_range_check := some false,
      json_result := some false } rfl rfl rfl

end KclChecks
